import Mathlib

/-!
Verification of the checkov Terraform configuration loader
(src/checkov/terraform/parser.py) against its natural-language
specification.  The Python payloads are embedded shallowly: the free-form
HCL/JSON value universe becomes the inductive type `Val`, dictionaries
become association lists with string keys (the shape every payload
produced by the HCL/JSON decoders has), and the stateful directory-load
pipeline becomes explicit state passing.  Python's stable `list.sort()` /
`sorted()` is embedded as a stable insertion sort `isort`.
-/

namespace CheckovParser

/-- Embedding of the Python value universe flowing through the parser:
strings, booleans, numbers, JSON null / Python None, lists, sets
(carried with their iteration order), dicts (association lists with
string keys, the shape of every HCL/JSON payload), and residual lark
parse-tree nodes (`lark.Tree`, constructor `vtree`), carried by the
payload of their rendered form. -/
inductive Val where
  | vstr : String → Val
  | vbool : Bool → Val
  | vnum : Int → Val
  | vnull : Val
  | vlist : List Val → Val
  | vset : List Val → Val
  | vdict : List (String × Val) → Val
  | vtree : String → Val

/-- One file's parsed payload: block-type to the decoded list of blocks
(the `_Hcl2Payload` alias of the source). -/
abbrev RawPayload := List (String × List Val)

/-- Stable insertion of one element into a list, keeping `x` in front of
the first element `y` with `le x y`.  Building block of `isort`. -/
def insertLe (le : α → α → Bool) (x : α) : List α → List α
  | [] => [x]
  | y :: ys => if le x y then x :: y :: ys else y :: insertLe le x ys

/-- Stable insertion sort; embeds Python's stable `list.sort()` and
`sorted()`. -/
def isort (le : α → α → Bool) : List α → List α
  | [] => []
  | x :: xs => insertLe le x (isort le xs)

theorem sizeOf_insertLe [SizeOf α] (le : α → α → Bool) (x : α) (l : List α) :
    sizeOf (insertLe le x l) = sizeOf (x :: l) := by
  induction l with
  | nil => simp [insertLe]
  | cons y ys ih =>
    simp only [insertLe]
    by_cases h : le x y = true
    · simp [h]
    · simp only [if_neg h, List.cons.sizeOf_spec]
      rw [ih]
      simp only [List.cons.sizeOf_spec]
      omega

theorem sizeOf_isort [SizeOf α] (le : α → α → Bool) (l : List α) :
    sizeOf (isort le l) = sizeOf l := by
  induction l with
  | nil => rfl
  | cons x xs ih =>
    rw [isort, sizeOf_insertLe]
    simp only [List.cons.sizeOf_spec]
    omega

theorem mem_insertLe (le : α → α → Bool) (x v : α) (l : List α) :
    v ∈ insertLe le x l ↔ v = x ∨ v ∈ l := by
  induction l with
  | nil => simp [insertLe]
  | cons y ys ih =>
    simp only [insertLe]
    by_cases h : le x y = true
    · simp [h]
    · simp only [if_neg h, List.mem_cons, ih]
      tauto

theorem mem_isort (le : α → α → Bool) (v : α) (l : List α) :
    v ∈ isort le l ↔ v ∈ l := by
  induction l with
  | nil => simp [isort]
  | cons x xs ih => simp [isort, mem_insertLe, ih]

theorem perm_insertLe (le : α → α → Bool) (x : α) (l : List α) :
    List.Perm (insertLe le x l) (x :: l) := by
  induction l with
  | nil => exact List.Perm.refl _
  | cons y ys ih =>
    simp only [insertLe]
    by_cases h : le x y = true
    · simp [h]
    · simp only [if_neg h]
      exact (ih.cons y).trans (List.Perm.swap x y ys)

theorem perm_isort (le : α → α → Bool) (l : List α) :
    List.Perm (isort le l) l := by
  induction l with
  | nil => exact List.Perm.refl _
  | cons x xs ih =>
    exact (perm_insertLe le x (isort le xs)).trans (ih.cons x)

/-- Chain-sortedness with respect to a boolean comparison; the shape of
output guaranteed by Python's `sort()` with a total ordering. -/
def SortedB (le : α → α → Bool) (l : List α) : Prop :=
  List.Chain' (fun a b => le a b = true) l

theorem sortedB_insertLe (le : α → α → Bool)
    (htot : ∀ a b, le a b = true ∨ le b a = true)
    (x : α) (l : List α) (hl : SortedB le l) :
    SortedB le (insertLe le x l) := by
  induction l with
  | nil => simp [insertLe, SortedB]
  | cons y ys ih =>
    simp only [insertLe]
    by_cases h : le x y = true
    · simp only [if_pos h]
      exact List.chain'_cons.mpr ⟨h, hl⟩
    · simp only [if_neg h]
      have hyx : le y x = true := (htot x y).resolve_left h
      have hys : SortedB le ys := hl.tail
      have hrec : SortedB le (insertLe le x ys) := ih hys
      cases ys with
      | nil =>
        simp only [insertLe, SortedB, List.chain'_cons, List.chain'_singleton,
          and_true]
        exact hyx
      | cons z zs =>
        simp only [insertLe] at hrec ⊢
        by_cases hz : le x z = true
        · simp only [if_pos hz] at hrec ⊢
          exact List.chain'_cons.mpr ⟨hyx, hrec⟩
        · simp only [if_neg hz] at hrec ⊢
          have hyz : le y z = true := (List.chain'_cons.mp hl).1
          exact List.chain'_cons.mpr ⟨hyz, hrec⟩

theorem sortedB_isort (le : α → α → Bool)
    (htot : ∀ a b, le a b = true ∨ le b a = true) (l : List α) :
    SortedB le (isort le l) := by
  induction l with
  | nil => simp [isort, SortedB]
  | cons x xs ih => exact sortedB_insertLe le htot x _ ih

theorem isort_eq_of_sorted (le : α → α → Bool) (l : List α)
    (hl : SortedB le l) : isort le l = l := by
  induction l with
  | nil => rfl
  | cons x xs ih =>
    have hxs : SortedB le xs := hl.tail
    rw [isort, ih hxs]
    cases xs with
    | nil => rfl
    | cons y ys =>
      have hxy : le x y = true := (List.chain'_cons.mp hl).1
      simp [insertLe, hxy]

/-! ## String helpers embedding Python `str` operations -/

/-- Boolean test that `pat` is a prefix of `cs` (character lists). -/
def takeMatches : List Char → List Char → Bool
  | [], _ => true
  | _ :: _, [] => false
  | p :: ps, c :: cs => p = c && takeMatches ps cs

/-- Boolean substring test on character lists. -/
def hasSub (pat : List Char) : List Char → Bool
  | [] => takeMatches pat []
  | c :: cs => takeMatches pat (c :: cs) || hasSub pat cs

/-- Embeds Python `s.startswith(pat)`. -/
def strStartsWith (s pat : String) : Bool := takeMatches pat.data s.data

/-- Embeds Python `pat in s` (substring containment). -/
def strContainsSub (s pat : String) : Bool := hasSub pat.data s.data

/-- Modelled from the spec: `find_var_blocks` together with
`VarBlockMatch.is_simple_var` live in `checkov.common.util.parser_utils`,
which is not included under src/.  Per the spec, a string value is
unacceptable as a module parameter exactly when, treated as a string, it
contains a Terraform-style simple variable reference: a `${...}`
interpolation, or a bare `var.x` / `local.x` / `module.x` reference at the
outermost scope. -/
def hasSimpleVarRef (s : String) : Bool :=
  strContainsSub s "$\x7b" || strStartsWith s "var." || strStartsWith s "local."
    || strStartsWith s "module."

/-! ## The unresolved-module-parameter gate
(`is_acceptable_module_param`, parser.py lines 931-955, and the gate in
`Parser._load_modules`, lines 430-438) -/

mutual

/-- Embeds `is_acceptable_module_param` (parser.py lines 931-955): dicts
check every value and every key, lists and sets check every element,
non-strings are acceptable, and a string is acceptable unless it carries a
simple variable reference. -/
def is_acceptable_module_param : Val → Bool
  | .vdict entries => acceptablePairs entries
  | .vset l => acceptableList l
  | .vlist l => acceptableList l
  | .vstr s => !hasSimpleVarRef s
  | _ => true

/-- The `for k, v in value.items()` loop of `is_acceptable_module_param`:
value first, then key, as in the source. -/
def acceptablePairs : List (String × Val) → Bool
  | [] => true
  | (k, v) :: rest =>
    is_acceptable_module_param v && is_acceptable_module_param (.vstr k)
      && acceptablePairs rest

/-- The `for v in value` loop of `is_acceptable_module_param`. -/
def acceptableList : List Val → Bool
  | [] => true
  | v :: rest => is_acceptable_module_param v && acceptableList rest

end

/-- Unwrapping of module-call parameter values
(`v[0] if isinstance(v, list) else v`, parser.py line 427).  An empty
list would raise IndexError in the source; HCL-decoded attribute values
are always single-element-wrapped, so the case is unreachable and mapped
to the empty list itself. -/
def unwrapParam : Val → Val
  | .vlist (x :: _) => x
  | .vlist [] => .vlist []
  | v => v

/-- Embeds the construction of `specified_vars` (parser.py lines 427-428):
all module-call attributes except `source` and `version`, each value
unwrapped from its single-element list. -/
def specifiedVarsOf (callData : List (String × Val)) : List (String × Val) :=
  (callData.filter (fun p => p.1 ≠ "source" && p.1 ≠ "version")).map
    (fun p => (p.1, unwrapParam p.2))

/-- Embeds the unresolved-parameter test of `Parser._load_modules`
(parser.py lines 431-435): some parameter has an unacceptable value or an
unacceptable key. -/
def has_unresolved_params (specVars : List (String × Val)) : Bool :=
  specVars.any (fun p =>
    !is_acceptable_module_param p.2 || !is_acceptable_module_param (.vstr p.1))

/-- Embeds the skip decision for one module call in `Parser._load_modules`
(parser.py lines 430-438): with `ignore_unresolved_params` set the gate is
bypassed; otherwise the call is skipped when it has unresolved
parameters. -/
def moduleCallSkipped (callData : List (String × Val))
    (ignoreUnresolvedParams : Bool) : Bool :=
  if ignoreUnresolvedParams then false
  else has_unresolved_params (specifiedVarsOf callData)

/-! ## The module-load loop (`Parser._internal_dir_load`, lines 323-342) -/

/-- Embeds the stage-4 loop `for i in range(0, 10)` of
`Parser._internal_dir_load`: each pass asks `_load_modules` whether it
skipped a module (`hasMore i force`, with `force` the current
`force_final_module_load` flag); the loop breaks when nothing was skipped
and otherwise sets the force flag (the source's `made_var_changes` is
always False).  The first argument is the list of remaining pass indices
from the range; the result is (number of passes executed, whether the
loop exited through the break rather than by exhausting the range). -/
def moduleLoopGo (hasMore : Nat → Bool → Bool) : List Nat → Bool → Nat × Bool
  | [], _ => (0, false)
  | i :: rest, force =>
    if hasMore i force then
      let r := moduleLoopGo hasMore rest true
      (r.1 + 1, r.2)
    else (1, true)

/-- The stage-4 module-load loop, started with the force flag off and the
10-iteration circuit breaker (`for i in range(0, 10)`). -/
def module_load_loop (hasMore : Nat → Bool → Bool) : Nat × Bool :=
  moduleLoopGo hasMore (List.range 10) false

theorem moduleLoopGo_bound (hasMore : Nat → Bool → Bool) :
    ∀ (l : List Nat) (force : Bool),
      (moduleLoopGo hasMore l force).1 ≤ l.length ∧
        ((moduleLoopGo hasMore l force).2 = true ∨
          (moduleLoopGo hasMore l force).1 = l.length) := by
  intro l
  induction l with
  | nil => intro force; simp [moduleLoopGo]
  | cons i rest ih =>
    intro force
    simp only [moduleLoopGo]
    by_cases h : hasMore i force = true
    · simp only [h, if_pos, List.length_cons]
      have := ih true
      constructor
      · omega
      · rcases this.2 with h2 | h2
        · left; exact h2
        · right; omega
    · rw [if_neg h]
      exact ⟨by simp, Or.inl rfl⟩

/-- The module-load loop specialised to a directory whose single module
call carries attribute data `callData`: a pass reports a skipped module
exactly when the unresolved-parameter gate rejects the call, and the
first pass that does not skip loads the call (marks it in
`_loaded_modules` and produces its instance key).  Returns (number of
passes executed, pass index at which the call was loaded). -/
def singleCallGo (callData : List (String × Val)) :
    List Nat → Bool → Nat × Option Nat
  | [], _ => (0, none)
  | i :: rest, force =>
    if moduleCallSkipped callData force then
      let r := singleCallGo callData rest true
      (r.1 + 1, r.2)
    else (1, some i)

/-- The single-module-call instance of the stage-4 loop
(`for i in range(0, 10)`, force flag initially off). -/
def single_call_loop (callData : List (String × Val)) : Nat × Option Nat :=
  singleCallGo callData (List.range 10) false

/-- C8: for every finite module graph and deterministic ModuleLoader
(yielding a deterministic per-pass outcome `hasMore`), each directory's
module-load loop runs at most 10 passes and terminates; it exits through
the break, i.e. when a pass (possibly the forced final one) skipped no
module call, or when the 10-pass circuit breaker trips. -/
theorem c8_module_load_loop_bounded (hasMore : Nat → Bool → Bool) :
    (module_load_loop hasMore).1 ≤ 10 ∧
      ((module_load_loop hasMore).2 = true ∨
        (module_load_loop hasMore).1 = 10) := by
  have h := moduleLoopGo_bound hasMore (List.range 10) false
  simpa [module_load_loop] using h

/-! ## Claim C10: acceptability of non-string module parameters -/

/-- Whether a dict payload contains a string anywhere: every dict entry of
an HCL/JSON payload carries a string key, so exactly the nonempty dicts
do. -/
def pairsContainString : List (String × Val) → Bool
  | [] => false
  | _ :: _ => true

mutual

/-- Whether a payload value contains a string anywhere in its structure
(the value itself, a list or set element, or a dict key or value). -/
def containsString : Val → Bool
  | .vstr _ => true
  | .vlist l => listContainsString l
  | .vset l => listContainsString l
  | .vdict entries => pairsContainString entries
  | _ => false

/-- List version of `containsString`. -/
def listContainsString : List Val → Bool
  | [] => false
  | v :: rest => containsString v || listContainsString rest

end

/-- Values whose Python type is neither `str` nor `dict`, `list`, `set`:
numbers, booleans, None, and opaque parse-tree nodes. -/
def isScalarParam : Val → Bool
  | .vstr _ => false
  | .vlist _ => false
  | .vset _ => false
  | .vdict _ => false
  | _ => true

theorem val_sizeOf_pos (v : Val) : 1 ≤ sizeOf v := by
  cases v <;> simp

theorem acceptable_aux : ∀ n : Nat,
    (∀ v : Val, sizeOf v ≤ n → containsString v = false →
      is_acceptable_module_param v = true) ∧
    (∀ l : List Val, sizeOf l ≤ n → listContainsString l = false →
      acceptableList l = true) := by
  intro n
  induction n with
  | zero =>
    constructor
    · intro v hv
      have := val_sizeOf_pos v
      omega
    · intro l hl
      cases l <;> simp_all
  | succ n ih =>
    constructor
    · intro v hv hc
      cases v with
      | vstr s => simp [containsString] at hc
      | vbool b => simp [is_acceptable_module_param]
      | vnum m => simp [is_acceptable_module_param]
      | vnull => simp [is_acceptable_module_param]
      | vtree t => simp [is_acceptable_module_param]
      | vlist l =>
        simp only [containsString] at hc
        simp only [is_acceptable_module_param]
        exact ih.2 l (by simp at hv; omega) hc
      | vset l =>
        simp only [containsString] at hc
        simp only [is_acceptable_module_param]
        exact ih.2 l (by simp at hv; omega) hc
      | vdict entries =>
        cases entries with
        | nil => simp [is_acceptable_module_param, acceptablePairs]
        | cons p rest => simp [containsString, pairsContainString] at hc
    · intro l hl hc
      cases l with
      | nil => simp [acceptableList]
      | cons v rest =>
        simp only [listContainsString, Bool.or_eq_false_iff] at hc
        have hv1 : 1 ≤ sizeOf v := val_sizeOf_pos v
        have hs : sizeOf (v :: rest) = 1 + sizeOf v + sizeOf rest := by simp
        simp only [acceptableList, Bool.and_eq_true]
        constructor
        · exact ih.1 v (by omega) hc.1
        · exact ih.2 rest (by omega) hc.2

/-- C10: the acceptability check returns true for every module-call
parameter value that is neither a string nor a dict, list, or set
(numbers, booleans, None, parse-tree nodes); more generally, any value
containing no string anywhere in its structure is acceptable; hence a
module call none of whose parameter keys or values contain a string
anywhere (which, keys being strings, forces an empty parameter map) is
never deferred by the unresolved-parameter gate, regardless of pass
number. -/
theorem c10_acceptable_params :
    (∀ v : Val, isScalarParam v = true → is_acceptable_module_param v = true) ∧
    (∀ v : Val, containsString v = false → is_acceptable_module_param v = true) ∧
    (∀ (callData : List (String × Val)) (ignore : Bool),
      (∀ p ∈ specifiedVarsOf callData,
          containsString (Val.vstr p.1) = false ∧ containsString p.2 = false) →
      moduleCallSkipped callData ignore = false) := by
  refine ⟨?_, ?_, ?_⟩
  · intro v h
    cases v <;> simp [isScalarParam] at h <;> simp [is_acceptable_module_param]
  · intro v hc
    exact (acceptable_aux (sizeOf v)).1 v le_rfl hc
  · intro callData ignore h
    cases ignore with
    | true => rfl
    | false =>
      have hfalse : has_unresolved_params (specifiedVarsOf callData) = false := by
        simp only [has_unresolved_params, List.any_eq_false]
        intro p hp
        have hps := (h p hp).1
        simp [containsString] at hps
      simpa [moduleCallSkipped] using hfalse

/-- Concrete instantiation of `c10_acceptable_params`: a number is
acceptable, a string-free structure is acceptable, and a call whose
parameter list is empty after removing `source` is never skipped. -/
theorem c10_witness :
    is_acceptable_module_param (Val.vnum 7) = true ∧
    is_acceptable_module_param (Val.vlist [Val.vnum 1, Val.vdict []]) = true ∧
    moduleCallSkipped [("source", Val.vlist [Val.vstr "./mod"])] false = false := by
  refine ⟨c10_acceptable_params.1 (Val.vnum 7) rfl,
    c10_acceptable_params.2.1 _ ?_,
    c10_acceptable_params.2.2 _ false ?_⟩
  · simp [containsString, listContainsString, pairsContainString]
  · intro p hp
    simp [specifiedVarsOf] at hp

/-! ## Claim C2: unresolved-parameter deferral and the forced final pass -/

/-- The module call of the C2 scenario,
`module "m" { source = "./mod"; x = var.unknown }`, as decoded by HCL:
attribute values are single-element-wrapped and the variable expression
is rendered as the interpolation string. -/
def c2CallData : List (String × Val) :=
  [("source", Val.vlist [Val.vstr "./mod"]),
   ("x", Val.vlist [Val.vstr "$\x7bvar.unknown\x7d"])]

theorem c2CallData_skipped : moduleCallSkipped c2CallData false = true := by
  have hx : is_acceptable_module_param (Val.vstr "$\x7bvar.unknown\x7d") = false := by
    simp only [is_acceptable_module_param]
    decide
  simp [moduleCallSkipped, has_unresolved_params, specifiedVarsOf, c2CallData,
    unwrapParam, hx]

theorem singleCallGo_step_skip (cd : List (String × Val)) (i : Nat)
    (rest : List Nat) (force : Bool) (h : moduleCallSkipped cd force = true) :
    singleCallGo cd (i :: rest) force =
      ((singleCallGo cd rest true).1 + 1, (singleCallGo cd rest true).2) := by
  simp [singleCallGo, h]

theorem singleCallGo_step_load (cd : List (String × Val)) (i : Nat)
    (rest : List Nat) (force : Bool) (h : moduleCallSkipped cd force = false) :
    singleCallGo cd (i :: rest) force = (1, some i) := by
  simp [singleCallGo, h]

/-- C2, counterexample: in the scenario
`module "m" { source = "./mod"; x = var.unknown }` the call is indeed
skipped on the first pass, but the loop then runs only 2 passes in total
and loads the call on pass index 1 (the second pass, which is the forced
final pass) — not after 10 passes as the claim states. -/
theorem c2_counterexample :
    moduleCallSkipped c2CallData false = true ∧
    single_call_loop c2CallData = (2, some 1) := by
  refine ⟨c2CallData_skipped, ?_⟩
  have hforced : moduleCallSkipped c2CallData true = false := rfl
  have hrange : List.range 10 = [0, 1, 2, 3, 4, 5, 6, 7, 8, 9] := by decide
  rw [single_call_loop, hrange,
    singleCallGo_step_skip c2CallData 0 _ false c2CallData_skipped,
    singleCallGo_step_load c2CallData 1 _ true hforced]

/-- C2, amended: a module call with an unresolved parameter is skipped on
the first pass; the loop then unconditionally sets
`force_final_module_load` (its `made_var_changes` is always False), so
the second pass is already the forced final pass: it bypasses the gate,
loads the call (producing the module-instance definition key), and the
loop terminates after exactly 2 passes. -/
theorem c2_deferred_then_forced (callData : List (String × Val))
    (h : moduleCallSkipped callData false = true) :
    single_call_loop callData = (2, some 1) ∧
      moduleCallSkipped callData true = false := by
  have hforced : moduleCallSkipped callData true = false := rfl
  refine ⟨?_, hforced⟩
  have hrange : List.range 10 = [0, 1, 2, 3, 4, 5, 6, 7, 8, 9] := by decide
  rw [single_call_loop, hrange,
    singleCallGo_step_skip callData 0 _ false h,
    singleCallGo_step_load callData 1 _ true hforced]

/-- Concrete instantiation of `c2_deferred_then_forced` at the C2
scenario call. -/
theorem c2_witness :
    single_call_loop c2CallData = (2, some 1) ∧
      moduleCallSkipped c2CallData true = false :=
  c2_deferred_then_forced c2CallData c2CallData_skipped

/-! ## Claim C4: the type normalizer
(`Parser._clean_parser_types`, lines 623-651, and
`Parser._clean_parser_types_lst`, lines 670-688) -/

/-- Lexicographic code-point comparison of character lists, the order
Python uses to compare strings. -/
def strLeData : List Char → List Char → Bool
  | [], _ => true
  | _ :: _, [] => false
  | a :: as, b :: bs =>
    if a.val < b.val then true
    else if b.val < a.val then false
    else strLeData as bs

/-- Python string comparison (code-point lexicographic), the order used by
`sort()` on strings. -/
def strLeB (a b : String) : Bool := strLeData a.data b.data

theorem strLeData_total : ∀ as bs : List Char,
    strLeData as bs = true ∨ strLeData bs as = true := by
  intro as
  induction as with
  | nil => intro bs; left; rfl
  | cons a as ih =>
    intro bs
    cases bs with
    | nil => right; rfl
    | cons b bs =>
      by_cases h1 : a.val < b.val
      · left; simp [strLeData, h1]
      · by_cases h2 : b.val < a.val
        · right; simp [strLeData, h2]
        · simp only [strLeData, h1, h2, if_false]
          exact ih bs

theorem strLeB_total (a b : String) : strLeB a b = true ∨ strLeB b a = true :=
  strLeData_total a.data b.data

/-- Comparison of dict entries by key, the order used by the key sort of
`_clean_parser_types` (payload dict keys are strings, so the
all-keys-share-a-type guard always passes). -/
def pairKeyLe (a b : String × Val) : Bool := strLeB a.1 b.1

theorem pairKeyLe_total (a b : String × Val) :
    pairKeyLe a b = true ∨ pairKeyLe b a = true := strLeB_total a.1 b.1

/-- Python `isinstance(v, str)` on payload values. -/
def isStrB : Val → Bool
  | .vstr _ => true
  | _ => false

/-- The string carried by a string value (irrelevant elsewhere; only
compared between string values). -/
def strOf : Val → String
  | .vstr s => s
  | _ => ""

/-- Comparison of string list elements, the order used by
`str_values_in_lst.sort()`. -/
def valStrLe (a b : Val) : Bool := strLeB (strOf a) (strOf b)

theorem valStrLe_total (a b : Val) :
    valStrLe a b = true ∨ valStrLe b a = true := strLeB_total (strOf a) (strOf b)

/-- Rendered form `str(tree)` of a lark parse-tree node carrying payload
`s`: lark renders nodes as `Tree(...)`. -/
def treeString (s : String) : String :=
  ⟨'T' :: 'r' :: 'e' :: 'e' :: '(' :: (s.data ++ [')'])⟩

theorem treeString_ne_bool_lits (s : String) :
    treeString s ≠ "true" ∧ treeString s ≠ "false" := by
  constructor
  · intro h
    have hd := congrArg String.data h
    have ht : "true".data = ['t', 'r', 'u', 'e'] := rfl
    rw [ht] at hd
    simp [treeString] at hd
  · intro h
    have hd := congrArg String.data h
    have ht : "false".data = ['f', 'a', 'l', 's', 'e'] := rfl
    rw [ht] at hd
    simp [treeString] at hd

/-- The string reordering at the end of `_clean_parser_types_lst`
(lines 684-688): the string elements are collected and sorted ascending;
the non-strings keep their original relative order and the sorted strings
are appended after them. -/
def reorderStrings (values : List Val) : List Val :=
  values.filter (fun v => !isStrB v) ++ isort valStrLe (values.filter isStrB)

mutual

/-- The per-element rewrite of the `for idx, val in enumerate(values)`
loop of `_clean_parser_types_lst` (lines 672-683): dicts are cleaned
recursively, lists recursively, the strings `true`/`false` become
booleans, sets become cleaned lists; everything else — including
parse-tree nodes, which this list path does not touch — is unchanged. -/
def cleanLstElem : Val → Val
  | .vdict d => .vdict (cleanPairs (isort pairKeyLe d))
  | .vlist l => .vlist (reorderStrings (cleanLstElems l))
  | .vstr s =>
    if s = "true" then .vbool true
    else if s = "false" then .vbool false
    else .vstr s
  | .vset l => .vlist (reorderStrings (cleanLstElems l))
  | v => v
termination_by v => sizeOf v
decreasing_by
  all_goals simp_wf
  all_goals (try rw [sizeOf_isort])
  all_goals omega

/-- Elementwise pass over a list's values. -/
def cleanLstElems : List Val → List Val
  | [] => []
  | v :: rest => cleanLstElem v :: cleanLstElems rest
termination_by l => sizeOf l
decreasing_by
  all_goals simp_wf
  all_goals omega

/-- The attribute-value rewrite of the
`for attribute, values in sorted_conf.items()` loop of
`_clean_parser_types` (lines 638-650): lists and sets are cleaned as
lists, dicts recursively, the strings `true`/`false` become booleans, and
parse-tree residue is stringified. -/
def cleanAttrVal : Val → Val
  | .vlist l => .vlist (reorderStrings (cleanLstElems l))
  | .vdict d => .vdict (cleanPairs (isort pairKeyLe d))
  | .vstr s =>
    if s = "true" then .vbool true
    else if s = "false" then .vbool false
    else .vstr s
  | .vset l => .vlist (reorderStrings (cleanLstElems l))
  | .vtree t => .vstr (treeString t)
  | v => v
termination_by v => sizeOf v
decreasing_by
  all_goals simp_wf
  all_goals (try rw [sizeOf_isort])
  all_goals omega

/-- The rebuild of the sorted dict with rewritten attribute values; the
attribute named `alias` is exempted (lines 639-640). -/
def cleanPairs : List (String × Val) → List (String × Val)
  | [] => []
  | (k, v) :: rest =>
    (k, if k = "alias" then v else cleanAttrVal v) :: cleanPairs rest
termination_by l => sizeOf l
decreasing_by
  all_goals simp_wf
  all_goals omega

end

/-- Embeds `Parser._clean_parser_types` (lines 623-651): sort the keys
(payload dict keys are strings, so the same-type guard always passes and
the early return on an empty dict coincides with rewriting the empty
dict), then rewrite each attribute value. -/
def clean_parser_types (conf : List (String × Val)) : List (String × Val) :=
  cleanPairs (isort pairKeyLe conf)

/-- Embeds `Parser._clean_parser_types_lst` (lines 670-688). -/
def clean_parser_types_lst (values : List Val) : List Val :=
  reorderStrings (cleanLstElems values)

theorem cleanLstElems_eq_map (l : List Val) :
    cleanLstElems l = l.map cleanLstElem := by
  induction l with
  | nil => simp [cleanLstElems]
  | cons v rest ih => simp [cleanLstElems, ih]

theorem cleanPairs_eq_map (l : List (String × Val)) :
    cleanPairs l = l.map (fun p =>
      (p.1, if p.1 = "alias" then p.2 else cleanAttrVal p.2)) := by
  induction l with
  | nil => simp [cleanPairs]
  | cons p rest ih =>
    cases p with
    | mk k v => simp [cleanPairs, ih]

theorem map_eq_self_on {f : α → α} {l : List α}
    (h : ∀ v ∈ l, f v = v) : l.map f = l := by
  induction l with
  | nil => rfl
  | cons x xs ih =>
    simp only [List.map_cons, h x (List.mem_cons_self x xs)]
    rw [ih (fun v hv => h v (List.mem_cons_of_mem x hv))]

theorem mem_reorderStrings (v : Val) (l : List Val)
    (h : v ∈ reorderStrings l) : v ∈ l := by
  rcases List.mem_append.mp h with h' | h'
  · exact (List.mem_filter.mp h').1
  · exact (List.mem_filter.mp ((mem_isort valStrLe v _).mp h')).1

theorem map_congr_on {f g : α → β} {l : List α}
    (h : ∀ v ∈ l, f v = g v) : l.map f = l.map g := by
  induction l with
  | nil => rfl
  | cons x xs ih =>
    simp only [List.map_cons, h x (List.mem_cons_self x xs)]
    rw [ih (fun v hv => h v (List.mem_cons_of_mem x hv))]

theorem reorderStrings_idem (l : List Val) :
    reorderStrings (reorderStrings l) = reorderStrings l := by
  have hA : ∀ v ∈ l.filter (fun v => !isStrB v), (!isStrB v) = true :=
    fun v hv => (List.mem_filter.mp hv).2
  have hB : ∀ v ∈ isort valStrLe (l.filter isStrB), isStrB v = true :=
    fun v hv => (List.mem_filter.mp ((mem_isort valStrLe v _).mp hv)).2
  have hBn : ∀ v ∈ isort valStrLe (l.filter isStrB), ¬((!isStrB v) = true) := by
    intro v hv
    simp [hB v hv]
  have hAn : ∀ v ∈ l.filter (fun v => !isStrB v), ¬(isStrB v = true) := by
    intro v hv
    have h' := hA v hv
    simp at h'
    simp [h']
  have h1 : (l.filter (fun v => !isStrB v) ++
      isort valStrLe (l.filter isStrB)).filter (fun v => !isStrB v)
      = l.filter (fun v => !isStrB v) := by
    rw [List.filter_append, List.filter_eq_self.mpr hA,
      List.filter_eq_nil_iff.mpr hBn, List.append_nil]
  have h2 : (l.filter (fun v => !isStrB v) ++
      isort valStrLe (l.filter isStrB)).filter isStrB
      = isort valStrLe (l.filter isStrB) := by
    rw [List.filter_append, List.filter_eq_nil_iff.mpr hAn,
      List.filter_eq_self.mpr hB, List.nil_append]
  simp only [reorderStrings]
  rw [h1, h2, isort_eq_of_sorted valStrLe _ (sortedB_isort valStrLe valStrLe_total _)]

theorem cleanPairs_keys_sorted (l : List (String × Val))
    (h : SortedB pairKeyLe l) : SortedB pairKeyLe (cleanPairs l) := by
  rw [cleanPairs_eq_map]
  rw [SortedB, List.chain'_map]
  exact h.imp (fun a b hab => hab)

theorem isort_cleanPairs_isort (d : List (String × Val)) :
    isort pairKeyLe (cleanPairs (isort pairKeyLe d))
      = cleanPairs (isort pairKeyLe d) :=
  isort_eq_of_sorted pairKeyLe _
    (cleanPairs_keys_sorted _ (sortedB_isort pairKeyLe pairKeyLe_total d))

theorem clean_idem_aux : ∀ n : Nat,
    (∀ v : Val, sizeOf v ≤ n →
      cleanLstElem (cleanLstElem v) = cleanLstElem v ∧
      cleanAttrVal (cleanAttrVal v) = cleanAttrVal v) ∧
    (∀ d : List (String × Val), sizeOf d ≤ n →
      clean_parser_types (clean_parser_types d) = clean_parser_types d) ∧
    (∀ l : List Val, sizeOf l ≤ n →
      clean_parser_types_lst (clean_parser_types_lst l) = clean_parser_types_lst l) := by
  intro n
  induction n with
  | zero =>
    refine ⟨fun v hv => ?_, fun d hd => ?_, fun l hl => ?_⟩
    · have := val_sizeOf_pos v; omega
    · cases d <;> simp_all
    · cases l <;> simp_all
  | succ n ih =>
    have hstr : ∀ s : String,
        cleanLstElem (cleanLstElem (Val.vstr s)) = cleanLstElem (Val.vstr s) ∧
        cleanAttrVal (cleanAttrVal (Val.vstr s)) = cleanAttrVal (Val.vstr s) := by
      intro s
      by_cases h1 : s = "true"
      · subst h1; constructor <;> simp [cleanLstElem, cleanAttrVal]
      · by_cases h2 : s = "false"
        · subst h2; constructor <;> simp [cleanLstElem, cleanAttrVal]
        · constructor <;> simp [cleanLstElem, cleanAttrVal, h1, h2]
    have hlist : ∀ l : List Val, sizeOf l ≤ n →
        reorderStrings (cleanLstElems (reorderStrings (cleanLstElems l)))
          = reorderStrings (cleanLstElems l) := by
      intro l hl
      have := ih.2.2 l hl
      simpa [clean_parser_types_lst] using this
    have hdict : ∀ d : List (String × Val), sizeOf d ≤ n →
        cleanPairs (isort pairKeyLe (cleanPairs (isort pairKeyLe d)))
          = cleanPairs (isort pairKeyLe d) := by
      intro d hd
      have := ih.2.1 d hd
      simpa [clean_parser_types] using this
    refine ⟨fun v hv => ?_, fun d hd => ?_, fun l hl => ?_⟩
    · cases v with
      | vstr s => exact hstr s
      | vbool b => constructor <;> simp [cleanLstElem, cleanAttrVal]
      | vnum m => constructor <;> simp [cleanLstElem, cleanAttrVal]
      | vnull => constructor <;> simp [cleanLstElem, cleanAttrVal]
      | vtree t =>
        constructor
        · simp [cleanLstElem]
        · have hne := treeString_ne_bool_lits t
          simp [cleanAttrVal, hne.1, hne.2]
      | vlist l =>
        have hs : sizeOf l ≤ n := by simp at hv; omega
        constructor <;> simp [cleanLstElem, cleanAttrVal, hlist l hs]
      | vset l =>
        have hs : sizeOf l ≤ n := by simp at hv; omega
        constructor <;> simp [cleanLstElem, cleanAttrVal, hlist l hs]
      | vdict d =>
        have hs : sizeOf d ≤ n := by simp at hv; omega
        constructor <;> simp [cleanLstElem, cleanAttrVal, hdict d hs]
    · rw [clean_parser_types, clean_parser_types, isort_cleanPairs_isort]
      rw [cleanPairs_eq_map, cleanPairs_eq_map, List.map_map]
      apply map_congr_on
      intro p hp
      have hpd : p ∈ d := (mem_isort pairKeyLe p d).mp hp
      obtain ⟨k, v2⟩ := p
      have hps : sizeOf (k, v2) < sizeOf d := List.sizeOf_lt_of_mem hpd
      have hp2 : sizeOf v2 ≤ n := by
        simp at hps
        omega
      by_cases hk : k = "alias"
      · simp [Function.comp, hk]
      · simp [Function.comp, hk, (ih.1 v2 hp2).2]
    · rw [clean_parser_types_lst, clean_parser_types_lst]
      rw [cleanLstElems_eq_map, cleanLstElems_eq_map]
      have hfix : ∀ v ∈ reorderStrings (l.map cleanLstElem),
          cleanLstElem v = v := by
        intro v hv
        rcases List.mem_map.mp (mem_reorderStrings v _ hv) with ⟨u, hu, rfl⟩
        have hus : sizeOf u ≤ n := by
          have := List.sizeOf_lt_of_mem hu
          omega
        exact (ih.1 u hus).1
      rw [map_eq_self_on hfix, reorderStrings_idem]

/-- C4: the type normalizer is idempotent — for every payload dict and
every payload list, applying the recursive cleanup of
`_clean_parser_types` / `_clean_parser_types_lst` twice gives the same
result as applying it once. -/
theorem c4_clean_parser_types_idem :
    (∀ conf : List (String × Val),
      clean_parser_types (clean_parser_types conf) = clean_parser_types conf) ∧
    (∀ values : List Val,
      clean_parser_types_lst (clean_parser_types_lst values)
        = clean_parser_types_lst values) :=
  ⟨fun conf => (clean_idem_aux (sizeOf conf)).2.1 conf le_rfl,
   fun values => (clean_idem_aux (sizeOf values)).2.2 values le_rfl⟩

/-! ## Claim C1: variable precedence
(`Parser._internal_dir_load` stages 1-2, lines 212-312) -/

/-- First-match association lookup: Python dict access on the var map. -/
def lookupVar (m : List (String × β)) (n : String) : Option β :=
  (m.find? (fun p => p.1 == n)).map (fun p => p.2)

/-- Python dict assignment `m[k] = v`: replace the binding in place when
the key is present (dicts keep the original position on overwrite),
append otherwise. -/
def setVar (m : List (String × β)) (k : String) (v : β) : List (String × β) :=
  match m with
  | [] => [(k, v)]
  | (k', v') :: rest =>
    if k' = k then (k, v) :: rest else (k', v') :: setVar rest k v

/-- Sequential application of (name, payload) bindings to the var map,
embedding the source's per-step `var_value_and_file_map` updates. -/
def applyUpdates (m : List (String × β)) : List (String × β) → List (String × β)
  | [] => m
  | (k, v) :: us => applyUpdates (setVar m k v) us

/-- The payload of the last binding for a given name in an update
sequence. -/
def lastSet (us : List (String × β)) (n : String) : Option β :=
  (us.reverse.find? (fun p => p.1 == n)).map (fun p => p.2)

theorem lookupVar_setVar (m : List (String × β)) (k : String) (v : β)
    (n : String) :
    lookupVar (setVar m k v) n = if n = k then some v else lookupVar m n := by
  induction m with
  | nil =>
    by_cases h : n = k
    · simp [setVar, lookupVar, List.find?, h]
    · have : (k == n) = false := by
        simp only [beq_eq_false_iff_ne, ne_eq]
        exact fun hk => h hk.symm
      simp [setVar, lookupVar, List.find?, this, h]
  | cons p rest ih =>
    obtain ⟨k', v'⟩ := p
    by_cases hk : k' = k
    · subst hk
      by_cases h : n = k'
      · subst h
        simp [setVar, lookupVar, List.find?]
      · have h1 : (k' == n) = false := by
          simp only [beq_eq_false_iff_ne, ne_eq]
          exact fun hk => h hk.symm
        simp [setVar, lookupVar, List.find?, h1, h]
    · by_cases h : n = k'
      · subst h
        simp [setVar, lookupVar, List.find?, hk]
      · have h1 : (k' == n) = false := by
          simp only [beq_eq_false_iff_ne, ne_eq]
          exact fun hk => h hk.symm
        simp only [setVar, if_neg hk, lookupVar, List.find?, h1]
        simpa [lookupVar] using ih

theorem lastSet_cons (k : String) (v : β) (us : List (String × β))
    (n : String) :
    lastSet ((k, v) :: us) n
      = (lastSet us n).or (if n = k then some v else none) := by
  rw [lastSet, List.reverse_cons, List.find?_append]
  cases hfind : us.reverse.find? (fun p => p.1 == n) with
  | some w => simp [lastSet, hfind]
  | none =>
    by_cases h : n = k
    · subst h
      simp [lastSet, hfind, List.find?]
    · have h1 : (k == n) = false := by
        simp only [beq_eq_false_iff_ne, ne_eq]
        exact fun hk => h hk.symm
      simp [lastSet, hfind, List.find?, h1, h]

theorem lookupVar_applyUpdates (us : List (String × β)) :
    ∀ (m : List (String × β)) (n : String),
      lookupVar (applyUpdates m us) n = (lastSet us n).or (lookupVar m n) := by
  induction us with
  | nil => intro m n; simp [applyUpdates, lastSet]
  | cons u us ih =>
    intro m n
    obtain ⟨k, v⟩ := u
    rw [applyUpdates, ih (setVar m k v) n, lookupVar_setVar, lastSet_cons]
    cases hfind : lastSet us n with
    | some w => simp [hfind]
    | none =>
      by_cases h : n = k
      · simp [hfind, h]
      · simp [hfind, h]

theorem applyUpdates_append (us vs : List (String × β)) :
    ∀ m : List (String × β),
      applyUpdates m (us ++ vs) = applyUpdates (applyUpdates m us) vs := by
  induction us with
  | nil => intro m; simp [applyUpdates]
  | cons u us ih =>
    intro m
    obtain ⟨k, v⟩ := u
    rw [List.cons_append, applyUpdates, applyUpdates, ih]

/-- One variable definition inside a `variable` block: its `default`
attribute when present.  HCL wraps the default in a single-element list
and stage 1 stores `default_value[0]` (lines 265-268); the field carries
that unwrapped value, `none` standing for an absent (or non-list, hence
skipped) default. -/
structure TfVarDef where
  defaultVal : Option Val

/-- The variable blocks of one loaded .tf file (`data.get("variable")`,
line 256). -/
structure TfFileVars where
  path : String
  varBlocks : List (List (String × TfVarDef))

/-- The inputs of one directory load's variable-resolution stages
(`Parser._internal_dir_load`, stages 1-2, lines 212-312): the loaded
resource files with their variable blocks, the environment, the two
terraform.tfvars files, the *.auto.tfvars files, the caller-supplied
ordered vars_files list together with the explicit var files found in the
directory, and the directly specified variables.  tfvars payloads from
HCL files keep their single-element list wrapping, exactly as the decoder
delivers them. -/
structure DirVarSources where
  files : List TfFileVars
  envVars : List (String × String)
  hclTfvars : Option (String × List (String × List Val))
  jsonTfvars : Option (String × List (String × Val))
  autoVarFiles : List (String × List (String × Val))
  varsFilesOrder : List String
  explicitVarFiles : List (String × List (String × Val))
  specifiedVars : List (String × Val)

/-- `_safe_index(v, 0)` (lines 923-928): the first element, or None when
the index does not exist. -/
def safeIndex0 : List Val → Val
  | [] => Val.vnull
  | x :: _ => x

/-- Stage-1 default loading (lines 249-268): files are iterated in
ascending path order (`sorted(files_to_data, key=lambda x: x[0])`); each
variable block contributes (name, unwrapped default, file path). -/
def stage1Updates (files : List TfFileVars) : List (String × (Val × String)) :=
  ((isort (fun a b => strLeB a.path b.path) files).map (fun f =>
    (f.varBlocks.map (fun block =>
      block.filterMap (fun p =>
        p.2.defaultVal.map (fun v => (p.1, (v, f.path)))))).flatten)).flatten

/-- Stage-2 environment step (lines 281-285): keys with the `TF_VAR_`
prefix bind the 7-character-stripped suffix, origin `env:<key>`. -/
def envUpdates (envVars : List (String × String)) :
    List (String × (Val × String)) :=
  envVars.filterMap (fun p =>
    if strStartsWith p.1 "TF_VAR_" then
      some (⟨p.1.data.drop 7⟩, (Val.vstr p.2, "env:" ++ p.1))
    else none)

/-- Stage-2 terraform.tfvars step (lines 286-290): values unwrapped with
`_safe_index(v, 0)`, origin the file path. -/
def hclTfvarsUpdates :
    Option (String × List (String × List Val)) →
      List (String × (Val × String))
  | none => []
  | some (path, data) => data.map (fun p => (p.1, (safeIndex0 p.2, path)))

/-- Stage-2 terraform.tfvars.json step (lines 291-295): values taken as
decoded, origin the file path. -/
def jsonTfvarsUpdates :
    Option (String × List (String × Val)) → List (String × (Val × String))
  | none => []
  | some (path, data) => data.map (fun p => (p.1, (p.2, path)))

/-- Stage-2 auto var-file step (lines 297-301): the files are sorted by
path ascending and each contributes its bindings with the value taken as
decoded — for an HCL .auto.tfvars file that is the single-element-wrapped
list; this path has no `_safe_index` unwrap. -/
def autoVarUpdates (autoVarFiles : List (String × List (String × Val))) :
    List (String × (Val × String)) :=
  ((isort (fun a b => strLeB a.1 b.1) autoVarFiles).map (fun f =>
    f.2.map (fun p => (p.1, (p.2, f.1))))).flatten

/-- Stage-2 explicit var-file step (lines 303-308): the files are sorted
by their position in the caller-supplied vars_files list
(`key=lambda x: vars_files.index(x[0])`), not by filesystem order; values
taken as decoded. -/
def explicitVarUpdates (order : List String)
    (files : List (String × List (String × Val))) :
    List (String × (Val × String)) :=
  ((isort (fun a b =>
      decide (order.findIdx (fun s => s == a.1) ≤
        order.findIdx (fun s => s == b.1))) files).map (fun f =>
    f.2.map (fun p => (p.1, (p.2, f.1))))).flatten

/-- Stage-2 specified-vars step (lines 310-312): origin
`manual specification`. -/
def specifiedUpdates (sv : List (String × Val)) :
    List (String × (Val × String)) :=
  sv.map (fun p => (p.1, (p.2, "manual specification")))

/-- All bindings of one directory load in precedence order, lowest to
highest. -/
def allVarUpdates (s : DirVarSources) : List (String × (Val × String)) :=
  stage1Updates s.files ++ envUpdates s.envVars
    ++ hclTfvarsUpdates s.hclTfvars ++ jsonTfvarsUpdates s.jsonTfvars
    ++ autoVarUpdates s.autoVarFiles
    ++ explicitVarUpdates s.varsFilesOrder s.explicitVarFiles
    ++ specifiedUpdates s.specifiedVars

/-- Embeds stages 1-2 of `Parser._internal_dir_load` (lines 212-312): the
`var_value_and_file_map` is built by applying each step's bindings in
order, each step overwriting earlier bindings for the same name. -/
def internal_dir_load_vars (s : DirVarSources) :
    List (String × (Val × String)) :=
  let m := applyUpdates [] (stage1Updates s.files)
  let m := applyUpdates m (envUpdates s.envVars)
  let m := applyUpdates m (hclTfvarsUpdates s.hclTfvars)
  let m := applyUpdates m (jsonTfvarsUpdates s.jsonTfvars)
  let m := applyUpdates m (autoVarUpdates s.autoVarFiles)
  let m := applyUpdates m (explicitVarUpdates s.varsFilesOrder s.explicitVarFiles)
  applyUpdates m (specifiedUpdates s.specifiedVars)

theorem internal_dir_load_vars_eq (s : DirVarSources) :
    internal_dir_load_vars s = applyUpdates [] (allVarUpdates s) := by
  rw [internal_dir_load_vars, allVarUpdates]
  rw [applyUpdates_append, applyUpdates_append, applyUpdates_append,
    applyUpdates_append, applyUpdates_append, applyUpdates_append]

/-- The directory of the C1 scenario: `variable "v" { default = "d" }` in
/d/vars.tf, `terraform.tfvars` setting v="t" (HCL-wrapped as ["t"]), env
TF_VAR_v=e, and `a.auto.tfvars` setting v="a" (HCL-wrapped as ["a"]). -/
def c1Example : DirVarSources :=
  { files := [⟨"/d/vars.tf", [[("v", ⟨some (Val.vstr "d")⟩)]]⟩]
    envVars := [("TF_VAR_v", "e")]
    hclTfvars := some ("/d/terraform.tfvars", [("v", [Val.vstr "t"])])
    jsonTfvars := none
    autoVarFiles := [("/d/a.auto.tfvars", [("v", Val.vlist [Val.vstr "a"])])]
    varsFilesOrder := []
    explicitVarFiles := []
    specifiedVars := [] }

/-- C1, counterexample: in the scenario of the claim the winning binding
for `v` does carry origin `/d/a.auto.tfvars`, but its value is the
HCL-wrapped single-element list `["a"]`, not the bare string `"a"`: the
auto-tfvars step (line 300) stores the decoded value without the
`_safe_index(v, 0)` unwrap that the terraform.tfvars step (line 289)
applies. -/
theorem c1_counterexample :
    lookupVar (internal_dir_load_vars c1Example) "v"
        = some (Val.vlist [Val.vstr "a"], "/d/a.auto.tfvars") ∧
      lookupVar (internal_dir_load_vars c1Example) "v"
        ≠ some (Val.vstr "a", "/d/a.auto.tfvars") := by
  have h : lookupVar (internal_dir_load_vars c1Example) "v"
      = some (Val.vlist [Val.vstr "a"], "/d/a.auto.tfvars") := by rfl
  refine ⟨h, ?_⟩
  rw [h]
  intro hcontra
  injection hcontra with h1
  injection h1 with h2 h3
  exact Val.noConfusion h2

/-- C1, amended: the var map of a directory load applies, in order from
lowest to highest precedence, variable-block defaults, TF_VAR_ environment
bindings, terraform.tfvars, terraform.tfvars.json, *.auto.tfvars files in
ascending path order, explicit var-files in the caller-supplied order,
and directly specified overrides; each later step overwrites earlier
bindings for the same name and the winner keeps the origin tag of the
step that set it (the lookup equals the last binding in the ordered
update sequence).  In the claim's scenario the winning binding for `v` is
the HCL-wrapped value `["a"]` with origin `/d/a.auto.tfvars`. -/
theorem c1_var_precedence :
    (∀ (s : DirVarSources) (n : String),
      lookupVar (internal_dir_load_vars s) n = lastSet (allVarUpdates s) n) ∧
    lookupVar (internal_dir_load_vars c1Example) "v"
      = some (Val.vlist [Val.vstr "a"], "/d/a.auto.tfvars") := by
  constructor
  · intro s n
    rw [internal_dir_load_vars_eq, lookupVar_applyUpdates]
    simp [lookupVar]
  · rfl

/-! ## Claim C5: block-identifier validation
(`ENTITY_NAME_PATTERN`, line 45, and `_is_valid_block` /
`validate_malformed_definitions`, lines 874-892) -/

/-- Python's regex class `\w` with Unicode semantics (word character:
letter, numeric, or underscore), modelled exactly on the code points this
development evaluates: the ASCII range, and the Latin-1 supplement —
where the word characters are the ordinal indicators (0xAA, 0xBA), the
micro sign (0xB5), the superscript and vulgar-fraction numerals (0xB2,
0xB3, 0xB9, 0xBC-0xBE), and the letters 0xC0-0xFF except the
multiplication (0xD7) and division (0xF7) signs.  Code points above 0xFF
are not modelled and are never evaluated here. -/
def pyWordChar (c : Char) : Bool :=
  decide ((65 ≤ c.toNat ∧ c.toNat ≤ 90) ∨ (97 ≤ c.toNat ∧ c.toNat ≤ 122)
    ∨ (48 ≤ c.toNat ∧ c.toNat ≤ 57) ∨ c.toNat = 95
    ∨ c.toNat = 0xAA ∨ c.toNat = 0xB5 ∨ c.toNat = 0xBA
    ∨ c.toNat = 0xB2 ∨ c.toNat = 0xB3 ∨ c.toNat = 0xB9
    ∨ c.toNat = 0xBC ∨ c.toNat = 0xBD ∨ c.toNat = 0xBE
    ∨ (0xC0 ≤ c.toNat ∧ c.toNat ≤ 0xFF ∧ c.toNat ≠ 0xD7 ∧ c.toNat ≠ 0xF7))

/-- Full match of the source's `ENTITY_NAME_PATTERN` regex
`[^\W0-9][\w-]*` (line 45, used with `re.fullmatch`): a word character
that is not one of the digits 0-9, followed by word characters or
hyphens. -/
def entityFullmatch (s : String) : Bool :=
  match s.data with
  | [] => false
  | c :: rest =>
    (pyWordChar c && !decide (48 ≤ c.toNat ∧ c.toNat ≤ 57)) &&
      rest.all (fun d => pyWordChar d || decide (d.toNat = 45))

/-- First-character class of the ASCII identifier grammar
`[A-Za-z_][A-Za-z0-9_-]*` named by the claim. -/
def asciiIdStart (c : Char) : Bool :=
  decide ((65 ≤ c.toNat ∧ c.toNat ≤ 90) ∨ (97 ≤ c.toNat ∧ c.toNat ≤ 122)
    ∨ c.toNat = 95)

/-- Rest-character class of the ASCII identifier grammar. -/
def asciiIdRest (c : Char) : Bool :=
  asciiIdStart c || decide ((48 ≤ c.toNat ∧ c.toNat ≤ 57) ∨ c.toNat = 45)

/-- Full match of the ASCII identifier grammar `[A-Za-z_][A-Za-z0-9_-]*`. -/
def asciiEntityMatch (s : String) : Bool :=
  match s.data with
  | [] => false
  | c :: rest => asciiIdStart c && rest.all asciiIdRest

/-- Embeds `_is_valid_block` (lines 874-885): non-dict blocks are valid,
the empty dict block is not, and otherwise the first top-level key
(`next(iter(block.keys()))`) must fully match `ENTITY_NAME_PATTERN`. -/
def is_valid_block : Val → Bool
  | .vdict [] => false
  | .vdict ((k, _) :: _) => entityFullmatch k
  | _ => true

/-- Embeds `validate_malformed_definitions` (lines 888-892). -/
def validate_malformed_definitions (raw : RawPayload) : RawPayload :=
  raw.map (fun p => (p.1, p.2.filter is_valid_block))

/-- Python `isinstance(b, dict)`. -/
def isDictB : Val → Bool
  | .vdict _ => true
  | _ => false

/-- `len` of a dict block (irrelevant for non-dicts, which
`clean_bad_definitions` keeps regardless). -/
def dictLen : Val → Nat
  | .vdict l => l.length
  | _ => 0

/-- Embeds `clean_bad_definitions` (lines 895-903): outside the block
types `locals` and `terraform` (the GOOD_BLOCK_TYPES of line 43) a
definition survives only if it is not a dict or has exactly one top-level
key. -/
def clean_bad_definitions (tfDefinitionList : RawPayload) : RawPayload :=
  tfDefinitionList.map (fun p =>
    (p.1, p.2.filter (fun b =>
      p.1 == "locals" || p.1 == "terraform" || !isDictB b || dictLen b == 1)))

theorem entity_start_char_agree (c : Char) (h : c.toNat < 128) :
    (pyWordChar c && !decide (48 ≤ c.toNat ∧ c.toNat ≤ 57)) = asciiIdStart c := by
  rw [Bool.eq_iff_iff]
  simp only [pyWordChar, asciiIdStart, Bool.and_eq_true, Bool.not_eq_true',
    decide_eq_true_eq, decide_eq_false_iff_not]
  omega

theorem entity_rest_char_agree (c : Char) (h : c.toNat < 128) :
    (pyWordChar c || decide (c.toNat = 45)) = asciiIdRest c := by
  rw [Bool.eq_iff_iff]
  simp only [pyWordChar, asciiIdStart, asciiIdRest, Bool.or_eq_true,
    decide_eq_true_eq]
  omega

theorem all_congr_on {f g : α → Bool} {l : List α}
    (h : ∀ v ∈ l, f v = g v) : l.all f = l.all g := by
  induction l with
  | nil => rfl
  | cons x xs ih =>
    simp only [List.all_cons, h x (List.mem_cons_self x xs)]
    rw [ih (fun v hv => h v (List.mem_cons_of_mem x hv))]

theorem entityFullmatch_ascii (k : String)
    (h : ∀ c ∈ k.data, c.toNat < 128) :
    entityFullmatch k = asciiEntityMatch k := by
  rw [entityFullmatch, asciiEntityMatch]
  cases hk : k.data with
  | nil => rfl
  | cons c rest =>
    show ((pyWordChar c && !decide (48 ≤ c.toNat ∧ c.toNat ≤ 57)) &&
        rest.all (fun d => pyWordChar d || decide (d.toNat = 45)))
      = (asciiIdStart c && rest.all asciiIdRest)
    have hc : c.toNat < 128 := h c (by rw [hk]; exact List.mem_cons_self c rest)
    rw [entity_start_char_agree c hc]
    have hrest : rest.all (fun d => pyWordChar d || decide (d.toNat = 45))
        = rest.all asciiIdRest := by
      apply all_congr_on
      intro d hd
      exact entity_rest_char_agree d
        (h d (by rw [hk]; exact List.mem_cons_of_mem c hd))
    rw [hrest]

/-- C5, counterexample: the block whose single top-level key is the
Latin-1 letter `é` is retained by the validator (the source pattern uses
Python's Unicode-aware `\w`), although `é` falls outside the ASCII
grammar `[A-Za-z_][A-Za-z0-9_-]*` asserted by the claim, so such a block
is not absent from the resulting payload. -/
theorem c5_counterexample :
    validate_malformed_definitions
        [("resource", [Val.vdict [("é", Val.vstr "x")]])]
      = [("resource", [Val.vdict [("é", Val.vstr "x")]])] ∧
    asciiEntityMatch "é" = false := by
  constructor
  · rfl
  · rfl

/-- C5, amended: validation filters each block list with
`is_valid_block`; a retained block is exactly a present and valid one;
empty dict blocks are dropped; and on blocks whose first top-level key is
all-ASCII, validity coincides with the grammar `[A-Za-z_][A-Za-z0-9_-]*`
— but the source pattern accepts Unicode word characters beyond ASCII,
and non-dict blocks pass unconditionally. -/
theorem c5_block_validation :
    (∀ (raw : RawPayload) (bt : String) (blocks : List Val),
      (bt, blocks) ∈ raw →
      (bt, blocks.filter is_valid_block) ∈ validate_malformed_definitions raw) ∧
    (∀ (blocks : List Val) (b : Val),
      b ∈ blocks.filter is_valid_block ↔ b ∈ blocks ∧ is_valid_block b = true) ∧
    is_valid_block (Val.vdict []) = false ∧
    (∀ (k : String) (v : Val) (rest : List (String × Val)),
      (∀ c ∈ k.data, c.toNat < 128) →
      is_valid_block (Val.vdict ((k, v) :: rest)) = asciiEntityMatch k) := by
  refine ⟨?_, ?_, rfl, ?_⟩
  · intro raw bt blocks hmem
    exact List.mem_map_of_mem (fun p => (p.1, p.2.filter is_valid_block)) hmem
  · intro blocks b
    exact List.mem_filter
  · intro k v rest h
    rw [is_valid_block, entityFullmatch_ascii k h]

/-- Concrete instantiation of `c5_block_validation`: the ordinary block
key `name` is all-ASCII, where validity and the ASCII grammar coincide. -/
theorem c5_witness :
    (("resource", [Val.vdict [("name", Val.vstr "x")]].filter is_valid_block)
        ∈ validate_malformed_definitions
            [("resource", [Val.vdict [("name", Val.vstr "x")]])]) ∧
    is_valid_block (Val.vdict [("name", Val.vstr "x")])
      = asciiEntityMatch "name" :=
  ⟨c5_block_validation.1 [("resource", [Val.vdict [("name", Val.vstr "x")]])]
      "resource" [Val.vdict [("name", Val.vstr "x")]]
      (List.mem_cons_self _ _),
   c5_block_validation.2.2.2 "name" (Val.vstr "x") [] (by decide)⟩

/-! ## Claim C3: file discovery during directory loads
(`Parser._internal_dir_load`, lines 222-252, and `Parser.parse_file`,
lines 129-137) -/

/-- Embeds Python `s.endswith(suffix)`. -/
def pyEndsWith (s suffix : String) : Bool := decide (suffix.data <:+ s.data)

/-- The category one directory entry falls into in the scan loop of
`Parser._internal_dir_load` (lines 223-245). -/
inductive ScanFileKind where
  | jsonTfvarsFile
  | hclTfvarsFile
  | autoTfvarsFile
  | explicitVarFile
  | tfFile
  | notLoaded
  deriving DecidableEq

/-- Embeds the if/elif classification of one regular file in the scan
loop (lines 232-245): terraform.tfvars.json, terraform.tfvars,
*.auto.tfvars(.json), explicit var files (when the caller passed a
vars_files list containing the path), then resource files — `.tf` and
`.hcl` only, the source carrying a TODO for `.tf.json` support; anything
else is not loaded. -/
def scan_classify (varsFiles : List String) (path fileName : String) :
    ScanFileKind :=
  if fileName = "terraform.tfvars.json" then .jsonTfvarsFile
  else if fileName = "terraform.tfvars" then .hclTfvarsFile
  else if pyEndsWith fileName ".auto.tfvars.json"
      || pyEndsWith fileName ".auto.tfvars" then .autoTfvarsFile
  else if !varsFiles.isEmpty && varsFiles.contains path then .explicitVarFile
  else if pyEndsWith fileName ".tf" || pyEndsWith fileName ".hcl" then .tfFile
  else .notLoaded

/-- The entries collected into `tf_files_to_load`, the only files stage 1
parses into the definition store (lines 222-252). -/
def tf_files_to_load (varsFiles : List String)
    (entries : List (String × String)) : List (String × String) :=
  entries.filter (fun e => scan_classify varsFiles e.1 e.2 == ScanFileKind.tfFile)

/-- Embeds the extension gate of `Parser.parse_file` (line 130), the
single-file API. -/
def parse_file_supported (file : String) : Bool :=
  pyEndsWith file ".tf" || pyEndsWith file ".tf.json" || pyEndsWith file ".hcl"

theorem suffix_of_both_suffix {l₁ l₂ s : List Char}
    (h₁ : l₁ <:+ s) (h₂ : l₂ <:+ s) (hl : l₁.length ≤ l₂.length) :
    l₁ <:+ l₂ := by
  have e₁ := List.suffix_iff_eq_drop.mp h₁
  have e₂ := List.suffix_iff_eq_drop.mp h₂
  have hb : l₂.length ≤ s.length := h₂.length_le
  rw [e₁, e₂]
  have key : s.drop (s.length - l₁.length)
      = (s.drop (s.length - l₂.length)).drop
          ((s.length - l₁.length) - (s.length - l₂.length)) := by
    rw [List.drop_drop]
    congr 1
    omega
  rw [key]
  exact List.drop_suffix _ _

theorem ends_short_false {name suf₁ suf₂ : String}
    (h : pyEndsWith name suf₁ = true)
    (hlen : suf₂.data.length ≤ suf₁.data.length)
    (hns : ¬ (suf₂.data <:+ suf₁.data)) : pyEndsWith name suf₂ = false := by
  cases hpe : pyEndsWith name suf₂ with
  | false => rfl
  | true =>
    exact absurd (suffix_of_both_suffix (of_decide_eq_true hpe)
      (of_decide_eq_true h) hlen) hns

theorem ends_long_false {name suf₁ suf₂ : String}
    (h : pyEndsWith name suf₁ = true)
    (hlen : suf₁.data.length ≤ suf₂.data.length)
    (hns : ¬ (suf₁.data <:+ suf₂.data)) : pyEndsWith name suf₂ = false := by
  cases hpe : pyEndsWith name suf₂ with
  | false => rfl
  | true =>
    exact absurd (suffix_of_both_suffix (of_decide_eq_true h)
      (of_decide_eq_true hpe) hlen) hns

/-- C3, counterexample: the regular file `/d/a.tf.json` falls into no
scan category — in particular it is not collected into
`tf_files_to_load`, so a directory load never decodes it or adds it to
the definition store — while the single-file `parse_file` API does accept
the name. -/
theorem c3_counterexample :
    scan_classify [] "/d/a.tf.json" "a.tf.json" = ScanFileKind.notLoaded ∧
    tf_files_to_load [] [("/d/a.tf.json", "a.tf.json")] = [] ∧
    parse_file_supported "a.tf.json" = true := by
  refine ⟨rfl, rfl, by decide⟩

/-- C3, amended: during a directory load every file whose name ends in
`.tf.json` (and whose path is not in the caller's explicit var-file list)
is classified as not loaded — only `.tf` and `.hcl` resource files are
parsed into the store, `.tf.json` support being an open TODO in the scan
loop — whereas the single-file `parse_file` API does handle `.tf.json`. -/
theorem c3_tf_json_not_loaded :
    (∀ (varsFiles : List String) (path name : String),
      pyEndsWith name ".tf.json" = true → varsFiles.contains path = false →
      scan_classify varsFiles path name = ScanFileKind.notLoaded) ∧
    (∀ name : String, pyEndsWith name ".tf.json" = true →
      parse_file_supported name = true) := by
  constructor
  · intro vfs path name h hc
    have h1 : ¬ (name = "terraform.tfvars.json") := by
      intro he
      rw [he] at h
      exact absurd h (by decide)
    have h2 : ¬ (name = "terraform.tfvars") := by
      intro he
      rw [he] at h
      exact absurd h (by decide)
    have h3 : pyEndsWith name ".auto.tfvars.json" = false :=
      ends_long_false h (by decide) (by decide)
    have h4 : pyEndsWith name ".auto.tfvars" = false :=
      ends_long_false h (by decide) (by decide)
    have h5 : pyEndsWith name ".tf" = false :=
      ends_short_false h (by decide) (by decide)
    have h6 : pyEndsWith name ".hcl" = false :=
      ends_short_false h (by decide) (by decide)
    rw [scan_classify, if_neg h1, if_neg h2]
    rw [h3, h4]
    rw [if_neg (by simp)]
    rw [hc]
    rw [if_neg (by simp)]
    rw [h5, h6]
    rw [if_neg (by simp)]
  · intro name h
    rw [parse_file_supported, h]
    simp

/-- Concrete instantiation of `c3_tf_json_not_loaded` at a file whose
path is not among the explicit var files. -/
theorem c3_witness :
    scan_classify ["/x/vars.tfvars"] "/d/b.tf.json" "b.tf.json"
        = ScanFileKind.notLoaded ∧
    parse_file_supported "b.tf.json" = true :=
  ⟨c3_tf_json_not_loaded.1 ["/x/vars.tfvars"] "/d/b.tf.json" "b.tf.json"
      (by decide) (by decide),
   c3_tf_json_not_loaded.2 "b.tf.json" (by decide)⟩

/-! ## Claim C9: raw JSON decode bypasses the sanity filters
(`_load_or_die_quietly`, lines 844-871) -/

/-- Embeds `_load_or_die_quietly` (lines 844-871), the two decoders
passed in (the spec consumes them as black boxes): a file name ending in
`.json` selects the JSON decoder and its payload is returned as decoded;
any other name selects the HCL decoder, whose payload passes through
`validate_malformed_definitions` and — unless `clean_definitions` is off,
as for terraform.tfvars — `clean_bad_definitions`.  A decoder error is
recorded under the file and yields no payload. -/
def load_or_die_quietly
    (jsonDecode hclDecode : String → Except String RawPayload)
    (fileName content : String) (cleanDefinitions : Bool)
    (parsingErrors : List (String × String)) :
    Option RawPayload × List (String × String) :=
  if pyEndsWith fileName ".json" then
    match jsonDecode content with
    | .ok d => (some d, parsingErrors)
    | .error e => (none, parsingErrors ++ [(fileName, e)])
  else
    match hclDecode content with
    | .ok raw =>
      (some (if cleanDefinitions then
          clean_bad_definitions (validate_malformed_definitions raw)
        else validate_malformed_definitions raw), parsingErrors)
    | .error e => (none, parsingErrors ++ [(fileName, e)])

/-- C9: for every file whose name ends in `.json` the parser returns the
raw JSON decode result directly — neither block-identifier validation nor
bad-definition cleanup touches it — while both sanity filters run exactly
on the HCL-decoded files. -/
theorem c9_json_raw :
    (∀ (jsonDecode hclDecode : String → Except String RawPayload)
        (fileName content : String) (clean : Bool)
        (errs : List (String × String)) (d : RawPayload),
      pyEndsWith fileName ".json" = true → jsonDecode content = .ok d →
      load_or_die_quietly jsonDecode hclDecode fileName content clean errs
        = (some d, errs)) ∧
    (∀ (jsonDecode hclDecode : String → Except String RawPayload)
        (fileName content : String) (clean : Bool)
        (errs : List (String × String)) (d : RawPayload),
      pyEndsWith fileName ".json" = false → hclDecode content = .ok d →
      load_or_die_quietly jsonDecode hclDecode fileName content clean errs
        = (some (if clean then
              clean_bad_definitions (validate_malformed_definitions d)
            else validate_malformed_definitions d), errs)) := by
  constructor
  · intro jd hd f c clean errs d hjson hok
    simp [load_or_die_quietly, hjson, hok]
  · intro jd hd f c clean errs d hjson hok
    simp [load_or_die_quietly, hjson, hok]

/-- Concrete instantiation of `c9_json_raw`: a JSON payload containing an
empty block — which the validator would drop — comes through a `.tf.json`
load untouched, while the same payload on the HCL path loses the block. -/
theorem c9_witness :
    load_or_die_quietly (fun _ => .ok [("resource", [Val.vdict []])])
        (fun _ => .error "unused") "x.tf.json" "" true []
      = (some [("resource", [Val.vdict []])], []) ∧
    load_or_die_quietly (fun _ => .error "unused")
        (fun _ => .ok [("resource", [Val.vdict []])]) "x.tf" "" true []
      = (some [("resource", [])], []) := by
  constructor
  · exact c9_json_raw.1 (fun _ => Except.ok [("resource", [Val.vdict []])])
      (fun _ => Except.error "unused") "x.tf.json" "" true []
      [("resource", [Val.vdict []])] (by decide) rfl
  · have h := c9_json_raw.2 (fun _ => Except.error "unused")
      (fun _ => Except.ok [("resource", [Val.vdict []])]) "x.tf" "" true []
      [("resource", [Val.vdict []])] (by decide) rfl
    rw [h]
    rfl

/-! ## Claim C6: `__resolved__` lists are sorted and duplicate-free
(`Parser._load_modules`, lines 494-527, and
`Parser._update_resolved_modules`, lines 581-593) -/

/-- Embeds the maintenance of one module call's `__resolved__` list in
`Parser._load_modules`: starting from the list already attached to the
call (or the empty list), each new instance key is appended only when
absent (lines 523-524) and the list is sorted ascending at the end of the
call (line 527); in nested mode `_update_resolved_modules` writes the
same list into the payload. -/
def update_resolved_list (resolvedLocList : List String)
    (newKeys : List String) : List String :=
  isort strLeB
    (newKeys.foldl (fun acc k => if acc.contains k then acc else acc ++ [k])
      resolvedLocList)

theorem appendIfAbsent_nodup (ks : List String) :
    ∀ acc : List String, acc.Nodup →
      (ks.foldl (fun acc k => if acc.contains k then acc else acc ++ [k])
        acc).Nodup := by
  induction ks with
  | nil => intro acc h; exact h
  | cons k ks ih =>
    intro acc h
    simp only [List.foldl_cons]
    by_cases hc : acc.contains k = true
    · rw [if_pos hc]
      exact ih acc h
    · rw [if_neg hc]
      apply ih
      have hk : k ∉ acc := by simpa using hc
      simp [List.nodup_append, h, hk]

/-- C6: every `__resolved__` list in an output store is the final value
of `update_resolved_list` (append-if-absent, then sort); for a
duplicate-free prior list — the initial empty list in particular — the
result is ascendingly sorted and duplicate-free. -/
theorem c6_resolved_sorted_nodup (resolvedLocList newKeys : List String)
    (h : resolvedLocList.Nodup) :
    SortedB strLeB (update_resolved_list resolvedLocList newKeys) ∧
    (update_resolved_list resolvedLocList newKeys).Nodup := by
  constructor
  · exact sortedB_isort strLeB strLeB_total _
  · exact (perm_isort strLeB _).symm.nodup (appendIfAbsent_nodup newKeys _ h)

/-- Concrete instantiation of `c6_resolved_sorted_nodup`: two instance
keys, one delivered twice and out of order. -/
theorem c6_witness :
    SortedB strLeB (update_resolved_list []
      ["/r/mod/main.tf[/r/main.tf#1]", "/r/mod/main.tf[/r/main.tf#0]",
        "/r/mod/main.tf[/r/main.tf#1]"]) ∧
    (update_resolved_list []
      ["/r/mod/main.tf[/r/main.tf#1]", "/r/mod/main.tf[/r/main.tf#0]",
        "/r/mod/main.tf[/r/main.tf#1]"]).Nodup :=
  c6_resolved_sorted_nodup []
    ["/r/mod/main.tf[/r/main.tf#1]", "/r/mod/main.tf[/r/main.tf#0]",
      "/r/mod/main.tf[/r/main.tf#1]"] List.nodup_nil

/-! ## Claim C7: error containment
(`parse_directory` → `_internal_dir_load` → `_load_or_die_quietly` /
`_load_modules`, lines 218, 344-369, 457-537, 844-871) -/

/-- The outcome environment of one directory load: the directory
enumeration (`os.scandir`, line 218, unguarded — its failure raises
outward), the per-file decode outcome consumed by
`_load_or_die_quietly`, and the per-call outcome of
`module_loader_registry.load` (lines 457-458). -/
structure DirLoadEnv where
  scandirResult : Except String (List String)
  parseResult : String → Except String RawPayload
  moduleLoadResult : String → Except String String

/-- The guarded per-file loading of stage 1 (`_load_files` with
`_load_or_die_quietly`, lines 247-252, 344-369, 844-871): a decode error
is recorded in the sink and the file contributes nothing; a payload is
added to the store under the file path. -/
def stage1Go (env : DirLoadEnv) :
    List String → List (String × RawPayload) × List (String × String) →
      List (String × RawPayload) × List (String × String)
  | [], acc => acc
  | f :: rest, acc =>
    match env.parseResult f with
    | .ok d => stage1Go env rest (acc.1 ++ [(f, d)], acc.2)
    | .error e => stage1Go env rest (acc.1, acc.2 ++ [(f, e)])

/-- The `source` strings of the module calls of one payload
(`_load_modules`, lines 399-444): the `module` block list holds one dict
per call; each call's data is a dict whose `source` attribute is
unwrapped from its single-element list and must be a string. -/
def moduleSourcesOf (payload : RawPayload) : List String :=
  match lookupVar payload "module" with
  | none => []
  | some blocks =>
    (blocks.map (fun b =>
      match b with
      | .vdict entries =>
        (entries.map (fun e =>
          match e.2 with
          | .vdict callData =>
            match lookupVar callData "source" with
            | some (.vlist (.vstr s :: _)) => [s]
            | _ => []
          | _ => [])).flatten
      | _ => [])).flatten

/-- The guarded module-load fold of `_load_modules` (lines 457-537): a
loader exception is caught, logged at warning level, and the call
skipped; loaded content is added to the store under its content path
(abstracting the re-entrant directory load and key rewriting). -/
def load_modules_go (env : DirLoadEnv) (calls : List String)
    (store : List (String × RawPayload)) : List (String × RawPayload) :=
  calls.foldl (fun st src =>
    match env.moduleLoadResult src with
    | .ok contentPath => st ++ [(contentPath, ([] : RawPayload))]
    | .error _ => st) store

/-- The error-propagation skeleton of one directory load: the directory
enumeration is unguarded and its failure propagates; every per-file
decode and every module load is guarded; the load returns the store and
the error sink. -/
def internal_dir_load_errors (env : DirLoadEnv) :
    Except String (List (String × RawPayload) × List (String × String)) :=
  match env.scandirResult with
  | .error e => .error e
  | .ok files =>
    let r := stage1Go env files ([], [])
    let calls := (r.1.map (fun p => moduleSourcesOf p.2)).flatten
    .ok (load_modules_go env calls r.1, r.2)

theorem stage1Go_err_mono (env : DirLoadEnv) (files : List String) :
    ∀ (acc : List (String × RawPayload) × List (String × String))
      (pe : String × String), pe ∈ acc.2 → pe ∈ (stage1Go env files acc).2 := by
  induction files with
  | nil => intro acc pe h; exact h
  | cons f rest ih =>
    intro acc pe h
    rw [stage1Go]
    cases hp : env.parseResult f with
    | ok d => exact ih _ pe h
    | error e =>
      apply ih
      simp only [List.mem_append]
      exact Or.inl h

theorem stage1Go_err_of_fail (env : DirLoadEnv) (files : List String) :
    ∀ (acc : List (String × RawPayload) × List (String × String))
      (f e : String), f ∈ files → env.parseResult f = .error e →
      (f, e) ∈ (stage1Go env files acc).2 := by
  induction files with
  | nil => intro acc f e h; simp at h
  | cons f0 rest ih =>
    intro acc f e hmem hp
    rw [stage1Go]
    rcases List.mem_cons.mp hmem with rfl | hmem'
    · rw [hp]
      apply stage1Go_err_mono
      simp
    · cases hp0 : env.parseResult f0 with
      | ok d => exact ih _ f e hmem' hp
      | error e0 => exact ih _ f e hmem' hp

theorem stage1Go_store_src (env : DirLoadEnv) (files : List String) :
    ∀ (acc : List (String × RawPayload) × List (String × String))
      (f : String) (d : RawPayload), (f, d) ∈ (stage1Go env files acc).1 →
      (f, d) ∈ acc.1 ∨ env.parseResult f = .ok d := by
  induction files with
  | nil => intro acc f d h; exact Or.inl h
  | cons f0 rest ih =>
    intro acc f d h
    rw [stage1Go] at h
    cases hp0 : env.parseResult f0 with
    | ok d0 =>
      rw [hp0] at h
      rcases ih _ f d h with h' | h'
      · rcases List.mem_append.mp h' with h'' | h''
        · exact Or.inl h''
        · simp only [List.mem_singleton] at h''
          obtain ⟨h1, h2⟩ := Prod.mk.injEq .. ▸ h''
          right
          rw [← h1] at hp0
          rw [hp0, h2]
      · exact Or.inr h'
    | error e0 =>
      rw [hp0] at h
      exact ih (acc.1, acc.2 ++ [(f0, e0)]) f d h

/-- C7: single-file parse failures and single-module load failures never
propagate out of a directory load — the load returns ok exactly when the
directory enumeration does, and propagates exactly the enumeration error
otherwise; a failing file's exception is recorded in the parsing-errors
sink while its contribution is omitted from the stage-1 store; failing
module calls are skipped without aborting the directory. -/
theorem c7_error_containment :
    (∀ env : DirLoadEnv,
      (internal_dir_load_errors env).isOk = env.scandirResult.isOk) ∧
    (∀ (env : DirLoadEnv) (e : String), env.scandirResult = .error e →
      internal_dir_load_errors env = .error e) ∧
    (∀ (env : DirLoadEnv) (files : List String) (f e : String),
      env.scandirResult = .ok files → f ∈ files →
      env.parseResult f = .error e →
      (f, e) ∈ (stage1Go env files ([], [])).2 ∧
      (∀ d : RawPayload, (f, d) ∉ (stage1Go env files ([], [])).1)) := by
  refine ⟨?_, ?_, ?_⟩
  · intro env
    cases hs : env.scandirResult with
    | ok files =>
      simp only [internal_dir_load_errors, hs]
      rfl
    | error e =>
      simp only [internal_dir_load_errors, hs]
      rfl
  · intro env e hs
    simp [internal_dir_load_errors, hs]
  · intro env files f e hs hmem hp
    constructor
    · exact stage1Go_err_of_fail env files ([], []) f e hmem hp
    · intro d hd
      rcases stage1Go_store_src env files ([], []) f d hd with h' | h'
      · simp at h'
      · rw [hp] at h'
        exact Except.noConfusion h'

/-- The concrete environment of the C7 witness: one file that fails to
decode, one module loader that always fails. -/
def envC7 : DirLoadEnv :=
  ⟨Except.ok ["/d/a.tf"], fun _ => Except.error "boom",
    fun _ => Except.error "no loader"⟩

/-- Concrete instantiation of `c7_error_containment` at `envC7`. -/
theorem c7_witness :
    ("/d/a.tf", "boom") ∈ (stage1Go envC7 ["/d/a.tf"] ([], [])).2 ∧
    (∀ d : RawPayload, ("/d/a.tf", d) ∉ (stage1Go envC7 ["/d/a.tf"] ([], [])).1) ∧
    (internal_dir_load_errors envC7).isOk = true := by
  have h := c7_error_containment.2.2 envC7 ["/d/a.tf"] "/d/a.tf" "boom" rfl
    (List.mem_cons_self _ _) rfl
  exact ⟨h.1, h.2, (c7_error_containment.1 envC7).trans rfl⟩

end CheckovParser
